import Mathlib

/-!
Verification of the recipe-explorer backend core
(`src/recipe_backend/src`): the saved-recipe store (`db/crud.py`,
`db/models.py`), the signup path (`api/auth.py`, `db/crud.py`), the
token service and request authorizer (`api/auth.py`), and the recipe
lookup gateway endpoints (`api/recipes.py`, `services/spoonacular.py`).

The database is embedded as an explicit list of rows.  Machine-level
concurrency is embedded by an explicit list of rows committed by other
writers between the existence check and the commit of the current
operation, together with a flag for integrity violations unrelated to
the (user_id, recipe_id) unique constraint.
-/

/-- Row of the `saved_recipes` table (`db/models.py`, class `SavedRecipe`). -/
structure SavedRecipe where
  id : Nat
  user_id : Int
  recipe_id : Int
  title : String
  image : Option String
  source_url : Option String
  aggregate_likes : Option Int
  ready_in_minutes : Option Int
  summary : Option String
  created_at : Nat
  deriving Repr, DecidableEq

/-- Payload of a save request (`db/schemas.py`, class `SavedRecipeCreate`). -/
structure SavedRecipeCreate where
  recipe_id : Int
  title : String
  image : Option String
  source_url : Option String
  aggregate_likes : Option Int
  ready_in_minutes : Option Int
  summary : Option String
  deriving Repr, DecidableEq

/-- State of the saved-recipe store: its rows, the next autoincrement
primary key, and the current clock used for `created_at` defaults. -/
structure SavedDB where
  rows : List SavedRecipe
  nextId : Nat
  now : Nat
  deriving Repr, DecidableEq

/-- The `WHERE user_id = ... AND recipe_id = ...` predicate used by
`upsert_saved` and `remove_saved` in `db/crud.py`. -/
def matchesPair (uid rid : Int) (r : SavedRecipe) : Bool :=
  r.user_id == uid && r.recipe_id == rid

/-- The `scalar_one_or_none` lookup of a saved row by (user_id, recipe_id). -/
def findSaved (rows : List SavedRecipe) (uid rid : Int) : Option SavedRecipe :=
  rows.find? (matchesPair uid rid)

/-- Overwrite the six denormalized fields of a row with the values of a
snapshot, as the update branch of `upsert_saved` does field by field. -/
def applyUpdate (r : SavedRecipe) (d : SavedRecipeCreate) : SavedRecipe :=
  { r with
    title := d.title
    image := d.image
    source_url := d.source_url
    aggregate_likes := d.aggregate_likes
    ready_in_minutes := d.ready_in_minutes
    summary := d.summary }

/-- Fresh row built by the insert branch of `upsert_saved`: the primary key
comes from the autoincrement counter and `created_at` from the clock. -/
def newItem (db : SavedDB) (uid : Int) (d : SavedRecipeCreate) : SavedRecipe :=
  { id := db.nextId
    user_id := uid
    recipe_id := d.recipe_id
    title := d.title
    image := d.image
    source_url := d.source_url
    aggregate_likes := d.aggregate_likes
    ready_in_minutes := d.ready_in_minutes
    summary := d.summary
    created_at := db.now }

/-- Commit of an ORM `UPDATE ... WHERE id = theId`: every row whose primary
key equals `theId` is replaced by the updated object. -/
def updateById (rows : List SavedRecipe) (theId : Nat) (upd : SavedRecipe) :
    List SavedRecipe :=
  rows.map (fun r => if r.id == theId then upd else r)

/-- `list_saved` from `db/crud.py`: all rows whose `user_id` matches. -/
def list_saved (db : SavedDB) (uid : Int) : List SavedRecipe :=
  db.rows.filter (fun r => r.user_id == uid)

/-- `upsert_saved` from `db/crud.py`, sequential case (no concurrent
writer): look up the existing row by (user_id, recipe_id); if found,
overwrite its denormalized fields and commit the update, otherwise insert
a fresh row.  Without interference the insert commit cannot violate the
unique constraint, so the `IntegrityError` branch is unreachable here. -/
def upsert_saved (db : SavedDB) (uid : Int) (d : SavedRecipeCreate) :
    SavedRecipe × SavedDB :=
  match findSaved db.rows uid d.recipe_id with
  | some existing =>
      let updated := applyUpdate existing d
      (updated, { db with rows := updateById db.rows existing.id updated })
  | none =>
      let item := newItem db uid d
      (item, { db with rows := db.rows ++ [item], nextId := db.nextId + 1 })

/-- Interference observed by one `upsert_saved` call: rows committed by
concurrent writers between its existence check and its own commit, and
whether the commit hits an integrity violation unrelated to the
`uq_user_recipe` constraint (e.g. a foreign-key failure). -/
structure RaceEnv where
  interleave : List SavedRecipe
  otherViolation : Bool
  deriving Repr, DecidableEq

/-- Error outcome of the concurrent upsert: an `IntegrityError` that the
`except` branch of `upsert_saved` re-raises to the caller. -/
inductive UpsertErr where
  | integrity
  deriving Repr, DecidableEq

/-- `upsert_saved` from `db/crud.py` with an explicit concurrent
environment.  The existence check reads the snapshot `db.rows`; by commit
time the visible table is `db.rows ++ env.interleave`.  The insert commit
raises `IntegrityError` when a row for the same (user_id, recipe_id) has
appeared, or when `env.otherViolation` signals an unrelated violation; on
that error the code rolls back, re-selects with the same statement and, if
a row now exists, performs the update path, otherwise re-raises. -/
def upsert_saved_conc (db : SavedDB) (env : RaceEnv) (uid : Int)
    (d : SavedRecipeCreate) : Except UpsertErr (SavedRecipe × SavedDB) :=
  match findSaved db.rows uid d.recipe_id with
  | some existing =>
      .ok (applyUpdate existing d,
        { db with
          rows := updateById (db.rows ++ env.interleave) existing.id
            (applyUpdate existing d) })
  | none =>
      if (db.rows ++ env.interleave).any (matchesPair uid d.recipe_id)
          || env.otherViolation then
        match findSaved (db.rows ++ env.interleave) uid d.recipe_id with
        | some existing =>
            .ok (applyUpdate existing d,
              { db with
                rows := updateById (db.rows ++ env.interleave) existing.id
                  (applyUpdate existing d) })
        | none => .error .integrity
      else
        .ok (newItem db uid d,
          { db with
            rows := (db.rows ++ env.interleave) ++ [newItem db uid d]
            nextId := db.nextId + 1 })

/-- `remove_saved` from `db/crud.py`: select the row by (user_id,
recipe_id); if absent return `false`, otherwise delete it (an ORM
`DELETE ... WHERE id = row.id`) and return `true`. -/
def remove_saved (db : SavedDB) (uid rid : Int) : Bool × SavedDB :=
  match findSaved db.rows uid rid with
  | none => (false, db)
  | some row =>
      (true, { db with rows := db.rows.filter (fun r => !(r.id == row.id)) })

/-- Six denormalized fields of a row agree with a snapshot. -/
def fieldsMatch (r : SavedRecipe) (d : SavedRecipeCreate) : Prop :=
  r.title = d.title ∧ r.image = d.image ∧ r.source_url = d.source_url ∧
    r.aggregate_likes = d.aggregate_likes ∧
    r.ready_in_minutes = d.ready_in_minutes ∧ r.summary = d.summary

instance (r : SavedRecipe) (d : SavedRecipeCreate) : Decidable (fieldsMatch r d) := by
  unfold fieldsMatch; infer_instance

/-- Two rows carry the same (user_id, recipe_id) pair. -/
def samePair (a b : SavedRecipe) : Prop :=
  a.user_id = b.user_id ∧ a.recipe_id = b.recipe_id

instance (a b : SavedRecipe) : Decidable (samePair a b) := by
  unfold samePair; infer_instance

/-- The `uq_user_recipe` unique constraint of `db/models.py`: no two rows
share a (user_id, recipe_id) pair. -/
def pairsDistinct (rows : List SavedRecipe) : Prop :=
  rows.Pairwise (fun a b => ¬ samePair a b)

instance (rows : List SavedRecipe) : Decidable (pairsDistinct rows) := by
  unfold pairsDistinct; infer_instance

/-- Primary-key uniqueness of the `id` column, enforced by the store. -/
def idsNodup (rows : List SavedRecipe) : Prop :=
  (rows.map (fun r => r.id)).Nodup

instance (rows : List SavedRecipe) : Decidable (idsNodup rows) := by
  unfold idsNodup; infer_instance

/-- Schema-enforced well-formedness of a store state: primary keys are
unique and below the autoincrement counter, and the `uq_user_recipe`
unique constraint holds. -/
def WF (db : SavedDB) : Prop :=
  idsNodup db.rows ∧ pairsDistinct db.rows ∧ ∀ r ∈ db.rows, r.id < db.nextId

instance (db : SavedDB) : Decidable (WF db) := by
  unfold WF; infer_instance

/-! Helper lemmas about the saved-recipe store. -/

theorem matchesPair_eq_true (uid rid : Int) (r : SavedRecipe) :
    matchesPair uid rid r = true ↔ r.user_id = uid ∧ r.recipe_id = rid := by
  simp [matchesPair]

theorem samePair_of_matches {uid rid : Int} {a b : SavedRecipe}
    (ha : matchesPair uid rid a = true) (hb : matchesPair uid rid b = true) :
    samePair a b := by
  rw [matchesPair_eq_true] at ha hb
  exact ⟨ha.1.trans hb.1.symm, ha.2.trans hb.2.symm⟩

theorem matches_of_samePair {uid rid : Int} {a b : SavedRecipe}
    (ha : matchesPair uid rid a = true) (hs : samePair b a) :
    matchesPair uid rid b = true := by
  rw [matchesPair_eq_true] at ha ⊢
  exact ⟨hs.1.trans ha.1, hs.2.trans ha.2⟩

theorem applyUpdate_fields (r : SavedRecipe) (d : SavedRecipeCreate) :
    fieldsMatch (applyUpdate r d) d :=
  ⟨rfl, rfl, rfl, rfl, rfl, rfl⟩

theorem newItem_fields (db : SavedDB) (uid : Int) (d : SavedRecipeCreate) :
    fieldsMatch (newItem db uid d) d :=
  ⟨rfl, rfl, rfl, rfl, rfl, rfl⟩

theorem newItem_matches (db : SavedDB) (uid : Int) (d : SavedRecipeCreate) :
    matchesPair uid d.recipe_id (newItem db uid d) = true := by
  rw [matchesPair_eq_true]; exact ⟨rfl, rfl⟩

/-- In a store with unique primary keys, a member sharing the key of a
member is that member. -/
theorem eq_of_mem_of_id_eq :
    ∀ {rows : List SavedRecipe}, idsNodup rows →
      ∀ {ex r : SavedRecipe}, ex ∈ rows → r ∈ rows → r.id = ex.id → r = ex := by
  intro rows
  induction rows with
  | nil => intro _ ex r hex; cases hex
  | cons a l ih =>
    intro hids ex r hex hr hid
    rw [idsNodup, List.map_cons, List.nodup_cons] at hids
    rcases List.mem_cons.mp hex with rfl | hex' <;>
      rcases List.mem_cons.mp hr with rfl | hr'
    · rfl
    · exact absurd (hid ▸ List.mem_map_of_mem (fun r => r.id) hr') hids.1
    · exact absurd (hid ▸ List.mem_map_of_mem (fun r => r.id) hex') hids.1
    · exact ih hids.2 hex' hr' hid

/-- Under the unique constraint, the rows matching a found pair are
exactly the found row. -/
theorem filter_of_findSaved {uid rid : Int} :
    ∀ {rows : List SavedRecipe} {ex : SavedRecipe}, pairsDistinct rows →
      findSaved rows uid rid = some ex →
      rows.filter (matchesPair uid rid) = [ex] := by
  intro rows
  induction rows with
  | nil => intro ex _ hfind; simp [findSaved] at hfind
  | cons a l ih =>
    intro ex hpairs hfind
    rw [pairsDistinct, List.pairwise_cons] at hpairs
    unfold findSaved at hfind
    by_cases pa : matchesPair uid rid a = true
    · rw [List.find?_cons_of_pos l pa] at hfind
      injection hfind with h
      subst h
      rw [List.filter_cons_of_pos pa, List.filter_eq_nil_iff.mpr]
      intro b hb hmb
      exact hpairs.1 b hb (samePair_of_matches pa hmb)
    · rw [List.find?_cons_of_neg l pa] at hfind
      rw [List.filter_cons_of_neg pa]
      exact ih hpairs.2 hfind

theorem filter_of_findSaved_none {uid rid : Int} {rows : List SavedRecipe}
    (h : findSaved rows uid rid = none) :
    rows.filter (matchesPair uid rid) = [] := by
  rw [List.filter_eq_nil_iff]
  exact List.find?_eq_none.mp h

theorem filter_map_of_invariant {α : Type} (p : α → Bool) (f : α → α) :
    ∀ l : List α, (∀ r ∈ l, p (f r) = p r) → (∀ r ∈ l, p r = true → f r = r) →
      (l.map f).filter p = l.filter p := by
  intro l
  induction l with
  | nil => intro _ _; rfl
  | cons a l ih =>
    intro h1 h2
    rw [List.map_cons]
    by_cases pa : p a = true
    · rw [List.filter_cons_of_pos pa, h2 a (List.mem_cons_self a l) pa,
        List.filter_cons_of_pos pa]
      rw [ih (fun r hr => h1 r (List.mem_cons_of_mem a hr))
        (fun r hr => h2 r (List.mem_cons_of_mem a hr))]
    · have pfa : ¬ p (f a) = true := by
        rw [h1 a (List.mem_cons_self a l)]; exact pa
      rw [List.filter_cons_of_neg pfa, List.filter_cons_of_neg pa]
      exact ih (fun r hr => h1 r (List.mem_cons_of_mem a hr))
        (fun r hr => h2 r (List.mem_cons_of_mem a hr))

theorem filter_filter_of_imp {α : Type} (p q : α → Bool) :
    ∀ l : List α, (∀ r ∈ l, p r = true → q r = true) →
      (l.filter q).filter p = l.filter p := by
  intro l
  induction l with
  | nil => intro _; rfl
  | cons a l ih =>
    intro h
    by_cases qa : q a = true
    · rw [List.filter_cons_of_pos qa]
      by_cases pa : p a = true
      · rw [List.filter_cons_of_pos pa, List.filter_cons_of_pos pa,
          ih (fun r hr => h r (List.mem_cons_of_mem a hr))]
      · rw [List.filter_cons_of_neg pa, List.filter_cons_of_neg pa,
          ih (fun r hr => h r (List.mem_cons_of_mem a hr))]
    · have pa : ¬ p a = true := fun hp => qa (h a (List.mem_cons_self a l) hp)
      rw [List.filter_cons_of_neg qa, List.filter_cons_of_neg pa,
        ih (fun r hr => h r (List.mem_cons_of_mem a hr))]

/-- Pointwise form of the ORM update commit used by the update branch of
`upsert_saved`: the row whose key matches the found row is replaced by
the field-overwritten object. -/
def updFun (ex : SavedRecipe) (d : SavedRecipeCreate) (r : SavedRecipe) :
    SavedRecipe :=
  if r.id == ex.id then applyUpdate ex d else r

theorem updateById_eq_map (rows : List SavedRecipe) (ex : SavedRecipe)
    (d : SavedRecipeCreate) :
    updateById rows ex.id (applyUpdate ex d) = rows.map (updFun ex d) := rfl

theorem updFun_id (ex : SavedRecipe) (d : SavedRecipeCreate) (r : SavedRecipe) :
    (updFun ex d r).id = r.id := by
  unfold updFun
  by_cases h : (r.id == ex.id) = true
  · rw [if_pos h]
    exact (eq_of_beq h).symm
  · rw [if_neg h]

theorem updFun_pair {rows : List SavedRecipe} (hids : idsNodup rows)
    {ex : SavedRecipe} (hmem : ex ∈ rows) (d : SavedRecipeCreate)
    {r : SavedRecipe} (hr : r ∈ rows) :
    (updFun ex d r).user_id = r.user_id ∧
      (updFun ex d r).recipe_id = r.recipe_id := by
  unfold updFun
  by_cases h : (r.id == ex.id) = true
  · have hre : r = ex := eq_of_mem_of_id_eq hids hmem hr (eq_of_beq h)
    rw [if_pos h, hre]
    exact ⟨rfl, rfl⟩
  · rw [if_neg h]
    exact ⟨rfl, rfl⟩

theorem updFun_matches {rows : List SavedRecipe} (hids : idsNodup rows)
    {ex : SavedRecipe} (hmem : ex ∈ rows) (d : SavedRecipeCreate)
    {uid rid : Int} {r : SavedRecipe} (hr : r ∈ rows) :
    matchesPair uid rid (updFun ex d r) = matchesPair uid rid r := by
  have h := updFun_pair hids hmem d hr
  unfold matchesPair
  rw [h.1, h.2]

/-- The update commit leaves the multiset of primary keys unchanged. -/
theorem updateById_ids (rows : List SavedRecipe) (ex : SavedRecipe)
    (d : SavedRecipeCreate) :
    (updateById rows ex.id (applyUpdate ex d)).map (fun r => r.id) =
      rows.map (fun r => r.id) := by
  rw [updateById_eq_map, List.map_map]
  exact List.map_congr_left (fun r _ => updFun_id ex d r)

/-- After the update commit, the rows matching the target pair are exactly
the updated row. -/
theorem updateById_filter_pair {rows : List SavedRecipe} {uid rid : Int}
    {ex : SavedRecipe} (hids : idsNodup rows) (hpairs : pairsDistinct rows)
    (d : SavedRecipeCreate) (hfind : findSaved rows uid rid = some ex) :
    (updateById rows ex.id (applyUpdate ex d)).filter (matchesPair uid rid) =
      [applyUpdate ex d] := by
  have hmem : ex ∈ rows := List.mem_of_find?_eq_some hfind
  rw [updateById_eq_map, List.filter_map (updFun ex d) rows,
    List.filter_congr (fun r hr => show (matchesPair uid rid ∘ updFun ex d) r
      = matchesPair uid rid r from updFun_matches hids hmem d hr),
    filter_of_findSaved hpairs hfind, List.map_cons, List.map_nil]
  unfold updFun
  rw [if_pos (beq_self_eq_true ex.id)]

/-- The update commit preserves the unique constraint. -/
theorem updateById_pairs {rows : List SavedRecipe} (hids : idsNodup rows)
    (hpairs : pairsDistinct rows) {ex : SavedRecipe} (hmem : ex ∈ rows)
    (d : SavedRecipeCreate) :
    pairsDistinct (updateById rows ex.id (applyUpdate ex d)) := by
  rw [updateById_eq_map, pairsDistinct, List.pairwise_map]
  refine hpairs.imp_of_mem ?_
  intro a b ha hb hne hs
  apply hne
  have hpa := updFun_pair hids hmem d ha
  have hpb := updFun_pair hids hmem d hb
  exact ⟨hpa.1 ▸ hpb.1 ▸ hs.1, hpa.2 ▸ hpb.2 ▸ hs.2⟩

/-- The update commit touches no row of any other user. -/
theorem updateById_frame {rows : List SavedRecipe} {uid rid : Int}
    {ex : SavedRecipe} (hids : idsNodup rows) (hmem : ex ∈ rows)
    (hmatch : matchesPair uid rid ex = true) (d : SavedRecipeCreate)
    {uid' : Int} (hne : uid' ≠ uid) :
    (updateById rows ex.id (applyUpdate ex d)).filter
        (fun r => r.user_id == uid') =
      rows.filter (fun r => r.user_id == uid') := by
  rw [updateById_eq_map]
  apply filter_map_of_invariant
  · intro r hr
    have h := (updFun_pair hids hmem d hr).1
    simp only [h]
  · intro r hr hp
    unfold updFun
    rw [if_neg]
    intro hid
    have hre : r = ex := eq_of_mem_of_id_eq hids hmem hr (eq_of_beq hid)
    have huid : r.user_id = uid' := eq_of_beq hp
    apply hne
    rw [← huid, hre]
    exact ((matchesPair_eq_true uid rid ex).mp hmatch).1

/-! Branch equations for the store operations. -/

theorem upsert_saved_of_found {db : SavedDB} {uid : Int} {d : SavedRecipeCreate}
    {ex : SavedRecipe} (hfind : findSaved db.rows uid d.recipe_id = some ex) :
    upsert_saved db uid d =
      (applyUpdate ex d,
        { db with rows := updateById db.rows ex.id (applyUpdate ex d) }) := by
  unfold upsert_saved
  rw [hfind]

theorem upsert_saved_of_none {db : SavedDB} {uid : Int} {d : SavedRecipeCreate}
    (hfind : findSaved db.rows uid d.recipe_id = none) :
    upsert_saved db uid d =
      (newItem db uid d,
        { db with
          rows := db.rows ++ [newItem db uid d]
          nextId := db.nextId + 1 }) := by
  unfold upsert_saved
  rw [hfind]

theorem remove_saved_of_none {db : SavedDB} {uid rid : Int}
    (h : findSaved db.rows uid rid = none) :
    remove_saved db uid rid = (false, db) := by
  unfold remove_saved
  rw [h]

theorem remove_saved_of_found {db : SavedDB} {uid rid : Int} {row : SavedRecipe}
    (h : findSaved db.rows uid rid = some row) :
    remove_saved db uid rid =
      (true, { db with rows := db.rows.filter (fun r => !(r.id == row.id)) }) := by
  unfold remove_saved
  rw [h]

/-- Inserting the fresh row preserves the unique constraint when no row
matched the target pair at check time. -/
theorem append_item_pairs {rows : List SavedRecipe} (hpairs : pairsDistinct rows)
    {uid rid : Int} {item : SavedRecipe}
    (hitem : matchesPair uid rid item = true)
    (hnone : ∀ a ∈ rows, ¬ matchesPair uid rid a = true) :
    pairsDistinct (rows ++ [item]) := by
  rw [pairsDistinct, List.pairwise_append]
  refine ⟨hpairs, List.pairwise_singleton _ _, ?_⟩
  intro a ha b hb hs
  rw [List.mem_singleton] at hb
  subst hb
  exact hnone a ha (matches_of_samePair hitem hs)

/-- Core behaviour of the sequential upsert on a well-formed store: the
returned row belongs to the given user and pair, carries the snapshot's
fields, is the only row matching the pair afterward, and well-formedness
is preserved. -/
theorem upsert_core (db : SavedDB) (uid : Int) (d : SavedRecipeCreate)
    (hwf : WF db) :
    (upsert_saved db uid d).1.user_id = uid ∧
    (upsert_saved db uid d).1.recipe_id = d.recipe_id ∧
    fieldsMatch (upsert_saved db uid d).1 d ∧
    (upsert_saved db uid d).2.rows.filter (matchesPair uid d.recipe_id) =
      [(upsert_saved db uid d).1] ∧
    WF (upsert_saved db uid d).2 := by
  obtain ⟨hids, hpairs, hbound⟩ := hwf
  cases hfind : findSaved db.rows uid d.recipe_id with
  | some ex =>
    have hmem : ex ∈ db.rows := List.mem_of_find?_eq_some hfind
    have hmatch : matchesPair uid d.recipe_id ex = true := List.find?_some hfind
    have hpair := (matchesPair_eq_true uid d.recipe_id ex).mp hmatch
    rw [upsert_saved_of_found hfind]
    refine ⟨hpair.1, hpair.2, applyUpdate_fields ex d,
      updateById_filter_pair hids hpairs d hfind, ?_, ?_, ?_⟩
    · rw [idsNodup, updateById_ids]
      exact hids
    · exact updateById_pairs hids hpairs hmem d
    · intro r hr
      rw [updateById_eq_map] at hr
      obtain ⟨r0, hr0, hr0e⟩ := List.mem_map.mp hr
      rw [← hr0e, updFun_id]
      exact hbound r0 hr0
  | none =>
    have hnomatch : ∀ a ∈ db.rows, ¬ matchesPair uid d.recipe_id a = true :=
      List.find?_eq_none.mp hfind
    rw [upsert_saved_of_none hfind]
    refine ⟨rfl, rfl, newItem_fields db uid d, ?_, ?_, ?_, ?_⟩
    · rw [List.filter_append, filter_of_findSaved_none hfind,
        List.filter_cons_of_pos (newItem_matches db uid d), List.filter_nil,
        List.nil_append]
    · rw [idsNodup, List.map_append, List.nodup_append]
      refine ⟨hids, List.nodup_singleton _, ?_⟩
      intro a ha hb
      rw [List.map_cons, List.map_nil, List.mem_singleton] at hb
      obtain ⟨r0, hr0, hr0e⟩ := List.mem_map.mp ha
      have h1 := hbound r0 hr0
      have h2 : (newItem db uid d).id = db.nextId := rfl
      omega
    · exact append_item_pairs hpairs (newItem_matches db uid d) hnomatch
    · intro r hr
      show r.id < db.nextId + 1
      rcases List.mem_append.mp hr with h | h
      · have := hbound r h
        omega
      · rw [List.mem_singleton] at h
        subst h
        show db.nextId < db.nextId + 1
        omega

theorem upsert_conc_of_found {db : SavedDB} {env : RaceEnv} {uid : Int}
    {d : SavedRecipeCreate} {ex : SavedRecipe}
    (hfind : findSaved db.rows uid d.recipe_id = some ex) :
    upsert_saved_conc db env uid d =
      .ok (applyUpdate ex d,
        { db with
          rows := updateById (db.rows ++ env.interleave) ex.id
            (applyUpdate ex d) }) := by
  simp only [upsert_saved_conc, hfind]

theorem upsert_conc_retry {db : SavedDB} {env : RaceEnv} {uid : Int}
    {d : SavedRecipeCreate} {ex : SavedRecipe}
    (hfind : findSaved db.rows uid d.recipe_id = none)
    (hguard : ((db.rows ++ env.interleave).any (matchesPair uid d.recipe_id)
      || env.otherViolation) = true)
    (hfind2 : findSaved (db.rows ++ env.interleave) uid d.recipe_id = some ex) :
    upsert_saved_conc db env uid d =
      .ok (applyUpdate ex d,
        { db with
          rows := updateById (db.rows ++ env.interleave) ex.id
            (applyUpdate ex d) }) := by
  simp only [upsert_saved_conc, hfind, hguard, if_true, hfind2]

theorem upsert_conc_error {db : SavedDB} {env : RaceEnv} {uid : Int}
    {d : SavedRecipeCreate}
    (hfind : findSaved db.rows uid d.recipe_id = none)
    (hguard : ((db.rows ++ env.interleave).any (matchesPair uid d.recipe_id)
      || env.otherViolation) = true)
    (hfind2 : findSaved (db.rows ++ env.interleave) uid d.recipe_id = none) :
    upsert_saved_conc db env uid d = .error .integrity := by
  simp only [upsert_saved_conc, hfind, hguard, if_true, hfind2]

theorem upsert_conc_insert {db : SavedDB} {env : RaceEnv} {uid : Int}
    {d : SavedRecipeCreate}
    (hfind : findSaved db.rows uid d.recipe_id = none)
    (hguard : ((db.rows ++ env.interleave).any (matchesPair uid d.recipe_id)
      || env.otherViolation) = false) :
    upsert_saved_conc db env uid d =
      .ok (newItem db uid d,
        { db with
          rows := (db.rows ++ env.interleave) ++ [newItem db uid d]
          nextId := db.nextId + 1 }) := by
  simp only [upsert_saved_conc, hfind, hguard, Bool.false_eq_true, if_false]

/-! Concrete fixtures used by the witnesses. -/

/-- Empty store with autoincrement counter 1 at clock 100. -/
def exampleDB : SavedDB := { rows := [], nextId := 1, now := 100 }

/-- Snapshot of the spec scenario `{recipe_id: 55, title: "Soup"}`. -/
def soup : SavedRecipeCreate :=
  { recipe_id := 55, title := "Soup", image := none, source_url := none
    aggregate_likes := none, ready_in_minutes := none, summary := none }

/-- Same pair as `soup` with different snapshot fields. -/
def soup2 : SavedRecipeCreate := { soup with title := "Soup v2" }

/-- A committed saved row for user 7, recipe 55. -/
def exampleRow : SavedRecipe :=
  { id := 1, user_id := 7, recipe_id := 55, title := "Soup", image := none
    source_url := none, aggregate_likes := none, ready_in_minutes := none
    summary := none, created_at := 100 }

/-- Store holding exactly `exampleRow`. -/
def exampleDB1 : SavedDB := { rows := [exampleRow], nextId := 2, now := 200 }

/-- C1: `upsert_saved` looks up the row by (user_id, snapshot.recipe_id);
if found it overwrites the six denormalized fields with the snapshot's
values and returns the row with identifier and created timestamp
unchanged; if absent it inserts a new row with those values; hence two
upserts with the same pair and different snapshots leave exactly one row
matching the pair, holding the latest field values. -/
theorem upsert_saved_spec (db : SavedDB) (uid : Int) (d d2 : SavedRecipeCreate)
    (hwf : WF db) (hrid : d2.recipe_id = d.recipe_id) :
    (∀ ex, findSaved db.rows uid d.recipe_id = some ex →
      (upsert_saved db uid d).1 = applyUpdate ex d ∧
      (upsert_saved db uid d).1.id = ex.id ∧
      (upsert_saved db uid d).1.created_at = ex.created_at ∧
      fieldsMatch (upsert_saved db uid d).1 d) ∧
    (findSaved db.rows uid d.recipe_id = none →
      (upsert_saved db uid d).1 = newItem db uid d ∧
      (upsert_saved db uid d).2.rows = db.rows ++ [newItem db uid d] ∧
      fieldsMatch (newItem db uid d) d ∧ (newItem db uid d).user_id = uid) ∧
    (((upsert_saved (upsert_saved db uid d).2 uid d2).2.rows.filter
        (matchesPair uid d.recipe_id)).length = 1 ∧
      ∀ r ∈ (upsert_saved (upsert_saved db uid d).2 uid d2).2.rows.filter
        (matchesPair uid d.recipe_id), fieldsMatch r d2) := by
  refine ⟨?_, ?_, ?_⟩
  · intro ex hfind
    rw [upsert_saved_of_found hfind]
    exact ⟨rfl, rfl, rfl, applyUpdate_fields ex d⟩
  · intro hfind
    rw [upsert_saved_of_none hfind]
    exact ⟨rfl, rfl, newItem_fields db uid d, rfl⟩
  · have hcore1 := upsert_core db uid d hwf
    have hcore2 := upsert_core (upsert_saved db uid d).2 uid d2 hcore1.2.2.2.2
    have hfilter := hcore2.2.2.2.1
    rw [hrid] at hfilter
    constructor
    · rw [hfilter]
      rfl
    · intro r hr
      rw [hfilter, List.mem_singleton] at hr
      subst hr
      exact hcore2.2.2.1

theorem upsert_saved_spec_witness :
    ((upsert_saved (upsert_saved exampleDB 7 soup).2 7 soup2).2.rows.filter
        (matchesPair 7 soup.recipe_id)).length = 1 ∧
      ∀ r ∈ (upsert_saved (upsert_saved exampleDB 7 soup).2 7 soup2).2.rows.filter
        (matchesPair 7 soup.recipe_id), fieldsMatch r soup2 :=
  (upsert_saved_spec exampleDB 7 soup soup2 (by decide) rfl).2.2

/-- C2: when the insert attempted by `upsert_saved` hits an integrity
violation and a row for (user_id, recipe_id) exists by then, the
operation rolls back, re-queries that row, applies the update path to it
and returns it; an integrity violation after which no row for the pair
exists is re-raised to the caller. -/
theorem upsert_race (db : SavedDB) (env : RaceEnv) (uid : Int)
    (d : SavedRecipeCreate)
    (hnone : findSaved db.rows uid d.recipe_id = none) :
    (∀ ex, findSaved (db.rows ++ env.interleave) uid d.recipe_id = some ex →
      upsert_saved_conc db env uid d =
        .ok (applyUpdate ex d,
          { db with
            rows := updateById (db.rows ++ env.interleave) ex.id
              (applyUpdate ex d) })) ∧
    (findSaved (db.rows ++ env.interleave) uid d.recipe_id = none →
      env.otherViolation = true →
      upsert_saved_conc db env uid d = .error .integrity) := by
  constructor
  · intro ex hfind2
    have hany : (db.rows ++ env.interleave).any (matchesPair uid d.recipe_id)
        = true :=
      List.any_eq_true.mpr
        ⟨ex, List.mem_of_find?_eq_some hfind2, List.find?_some hfind2⟩
    exact upsert_conc_retry hnone (by rw [hany]; rfl) hfind2
  · intro hfind2 hother
    exact upsert_conc_error hnone (by rw [hother, Bool.or_true]) hfind2

theorem upsert_race_witness :
    upsert_saved_conc exampleDB ⟨[exampleRow], false⟩ 7 soup =
      .ok (applyUpdate exampleRow soup,
        { exampleDB with
          rows := updateById (exampleDB.rows ++ [exampleRow]) exampleRow.id
            (applyUpdate exampleRow soup) }) :=
  (upsert_race exampleDB ⟨[exampleRow], false⟩ 7 soup (by decide)).1
    exampleRow (by decide)

/-- C3: starting from a state whose (user_id, recipe_id) pairs are
pairwise distinct (and whose primary keys are unique, as the store
enforces), after any of the three saved-recipe operations completes —
including an upsert raced by concurrent commits that themselves respect
the constraints — the pairs are still pairwise distinct. -/
theorem saved_invariant (db : SavedDB) (env : RaceEnv) (uid rid : Int)
    (d : SavedRecipeCreate)
    (hpairs : pairsDistinct (db.rows ++ env.interleave))
    (hids : idsNodup (db.rows ++ env.interleave)) :
    pairsDistinct (list_saved db uid) ∧
    pairsDistinct (upsert_saved db uid d).2.rows ∧
    pairsDistinct (remove_saved db uid rid).2.rows ∧
    ∀ res db', upsert_saved_conc db env uid d = .ok (res, db') →
      pairsDistinct db'.rows := by
  have hpairs0 : pairsDistinct db.rows :=
    hpairs.sublist (List.sublist_append_left db.rows env.interleave)
  have hids0 : idsNodup db.rows :=
    hids.sublist
      ((List.sublist_append_left db.rows env.interleave).map (fun r => r.id))
  refine ⟨hpairs0.sublist (List.filter_sublist db.rows), ?_, ?_, ?_⟩
  · cases hfind : findSaved db.rows uid d.recipe_id with
    | some ex =>
      rw [upsert_saved_of_found hfind]
      exact updateById_pairs hids0 hpairs0 (List.mem_of_find?_eq_some hfind) d
    | none =>
      rw [upsert_saved_of_none hfind]
      exact append_item_pairs hpairs0 (newItem_matches db uid d)
        (List.find?_eq_none.mp hfind)
  · cases hfind : findSaved db.rows uid rid with
    | some row =>
      rw [remove_saved_of_found hfind]
      exact hpairs0.sublist (List.filter_sublist db.rows)
    | none =>
      rw [remove_saved_of_none hfind]
      exact hpairs0
  · intro res db' h
    cases hfind : findSaved db.rows uid d.recipe_id with
    | some ex =>
      rw [upsert_conc_of_found hfind] at h
      simp only [Except.ok.injEq, Prod.mk.injEq] at h
      rw [← h.2]
      exact updateById_pairs hids hpairs
        (List.mem_append_left env.interleave (List.mem_of_find?_eq_some hfind)) d
    | none =>
      by_cases hguard : ((db.rows ++ env.interleave).any
          (matchesPair uid d.recipe_id) || env.otherViolation) = true
      · cases hfind2 : findSaved (db.rows ++ env.interleave) uid d.recipe_id with
        | some ex2 =>
          rw [upsert_conc_retry hfind hguard hfind2] at h
          simp only [Except.ok.injEq, Prod.mk.injEq] at h
          rw [← h.2]
          exact updateById_pairs hids hpairs (List.mem_of_find?_eq_some hfind2) d
        | none =>
          rw [upsert_conc_error hfind hguard hfind2] at h
          exact absurd h (by simp)
      · have hguard' := eq_false_of_ne_true hguard
        rw [upsert_conc_insert hfind hguard'] at h
        simp only [Except.ok.injEq, Prod.mk.injEq] at h
        rw [← h.2]
        have hany : (db.rows ++ env.interleave).any
            (matchesPair uid d.recipe_id) = false :=
          (Bool.or_eq_false_iff.mp hguard').1
        exact append_item_pairs hpairs (newItem_matches db uid d)
          (fun a ha => by
            have := List.any_eq_false.mp hany a ha
            simpa using this)

theorem saved_invariant_witness :
    pairsDistinct (upsert_saved exampleDB1 7 soup2).2.rows :=
  (saved_invariant exampleDB1 ⟨[], false⟩ 7 55 soup2 (by decide) (by decide)).2.1

/-- C9: `remove_saved` deletes the matching row and returns `true` when
one exists, returns `false` without error when none does, and two
consecutive removals of the same (user_id, recipe_id) report a deletion
only the first time. -/
theorem remove_saved_spec (db : SavedDB) (uid rid : Int)
    (hpairs : pairsDistinct db.rows) :
    (findSaved db.rows uid rid = none → remove_saved db uid rid = (false, db)) ∧
    (∀ row, findSaved db.rows uid rid = some row →
      (remove_saved db uid rid).1 = true ∧
      findSaved (remove_saved db uid rid).2.rows uid rid = none) ∧
    (remove_saved (remove_saved db uid rid).2 uid rid).1 = false := by
  have hgone : ∀ row, findSaved db.rows uid rid = some row →
      findSaved (db.rows.filter (fun r => !(r.id == row.id))) uid rid = none := by
    intro row hfind
    rw [findSaved, List.find?_eq_none]
    intro r hr hm
    rw [List.mem_filter] at hr
    have : r ∈ db.rows.filter (matchesPair uid rid) :=
      List.mem_filter.mpr ⟨hr.1, hm⟩
    rw [filter_of_findSaved hpairs hfind, List.mem_singleton] at this
    subst this
    rw [beq_self_eq_true] at hr
    exact absurd hr.2 (by simp)
  refine ⟨fun h => remove_saved_of_none h, ?_, ?_⟩
  · intro row hfind
    rw [remove_saved_of_found hfind]
    exact ⟨rfl, hgone row hfind⟩
  · cases hfind : findSaved db.rows uid rid with
    | none =>
      rw [remove_saved_of_none hfind, remove_saved_of_none hfind]
    | some row =>
      rw [remove_saved_of_found hfind,
        remove_saved_of_none (hgone row hfind)]

theorem remove_saved_spec_witness :
    (remove_saved (remove_saved exampleDB1 7 55).2 7 55).1 = false :=
  (remove_saved_spec exampleDB1 7 55 (by decide)).2.2

/-- C10: each saved-recipe operation invoked with a user_id touches only
that user's rows: `list_saved` returns rows of that user only, the row
`upsert_saved` creates or updates belongs to that user and every other
user's rows are left unchanged, and `remove_saved` deletes at most the
row matching the pair, leaving every other user's rows unchanged. -/
theorem saved_user_frame (db : SavedDB) (uid uid' rid : Int)
    (d : SavedRecipeCreate) (hids : idsNodup db.rows) (hne : uid' ≠ uid) :
    (∀ r ∈ list_saved db uid, r.user_id = uid) ∧
    (upsert_saved db uid d).1.user_id = uid ∧
    (upsert_saved db uid d).2.rows.filter (fun r => r.user_id == uid') =
      db.rows.filter (fun r => r.user_id == uid') ∧
    (remove_saved db uid rid).2.rows.filter (fun r => r.user_id == uid') =
      db.rows.filter (fun r => r.user_id == uid') ∧
    (∀ r ∈ db.rows, r ∉ (remove_saved db uid rid).2.rows →
      r.user_id = uid ∧ r.recipe_id = rid) := by
  refine ⟨?_, ?_, ?_, ?_, ?_⟩
  · intro r hr
    rw [list_saved, List.mem_filter] at hr
    exact eq_of_beq hr.2
  · cases hfind : findSaved db.rows uid d.recipe_id with
    | some ex =>
      rw [upsert_saved_of_found hfind]
      exact ((matchesPair_eq_true uid d.recipe_id ex).mp
        (List.find?_some hfind)).1
    | none =>
      rw [upsert_saved_of_none hfind]
      rfl
  · cases hfind : findSaved db.rows uid d.recipe_id with
    | some ex =>
      rw [upsert_saved_of_found hfind]
      exact updateById_frame hids (List.mem_of_find?_eq_some hfind)
        (List.find?_some hfind) d hne
    | none =>
      rw [upsert_saved_of_none hfind]
      show (db.rows ++ [newItem db uid d]).filter (fun r => r.user_id == uid') = _
      rw [List.filter_append, List.filter_cons_of_neg, List.filter_nil,
        List.append_nil]
      intro hb
      exact hne (eq_of_beq hb).symm
  · cases hfind : findSaved db.rows uid rid with
    | none =>
      rw [remove_saved_of_none hfind]
    | some row =>
      rw [remove_saved_of_found hfind]
      apply filter_filter_of_imp
      intro r hr hp
      have huid' : r.user_id = uid' := eq_of_beq hp
      rw [Bool.not_eq_true', beq_eq_false_iff_ne]
      intro hid
      have hre : r = row :=
        eq_of_mem_of_id_eq hids (List.mem_of_find?_eq_some hfind) hr hid
      apply hne
      rw [← huid', hre]
      exact ((matchesPair_eq_true uid rid row).mp (List.find?_some hfind)).1
  · intro r hr hnot
    cases hfind : findSaved db.rows uid rid with
    | none =>
      rw [remove_saved_of_none hfind] at hnot
      exact absurd hr hnot
    | some row =>
      rw [remove_saved_of_found hfind] at hnot
      have : ¬ (!(r.id == row.id)) = true := by
        intro hq
        exact hnot (List.mem_filter.mpr ⟨hr, hq⟩)
      rw [Bool.not_eq_true, Bool.not_eq_false'] at this
      have hre : r = row :=
        eq_of_mem_of_id_eq hids (List.mem_of_find?_eq_some hfind) hr
          (eq_of_beq this)
      rw [hre]
      exact (matchesPair_eq_true uid rid row).mp (List.find?_some hfind)

theorem saved_user_frame_witness :
    (remove_saved exampleDB1 7 55).2.rows.filter (fun r => r.user_id == 8) =
      exampleDB1.rows.filter (fun r => r.user_id == 8) :=
  (saved_user_frame exampleDB1 7 8 55 soup (by decide) (by decide)).2.2.2.1

/-!
Credential store and signup path (`db/models.py` class `User`,
`api/auth.py` route `signup`).  The route checks `get_user_by_email`
first and raises HTTP 400 "User with this email already exists" when a
row is found; otherwise it inserts and commits.  The commit raises
`IntegrityError` when the `users.email` unique constraint is violated by
a row committed after the check; the route has no `except IntegrityError`
handler, so that error propagates as a generic server failure.
-/

/-- Row of the `users` table (`db/models.py`, class `User`). -/
structure User where
  id : Nat
  email : String
  password_hash : String
  created_at : Nat
  deriving Repr, DecidableEq

/-- State of the credential store. -/
structure UserDB where
  rows : List User
  nextId : Nat
  now : Nat
  deriving Repr, DecidableEq

/-- `get_user_by_email` from `db/crud.py`. -/
def get_user_by_email (rows : List User) (email : String) : Option User :=
  rows.find? (fun u => u.email == email)

/-- Failure outcomes of the signup route: the HTTP 400 duplicate-email
rejection raised after the existence check, or the store's
`IntegrityError` propagating uncaught (a generic failure to the caller). -/
inductive SignupErr where
  | duplicateEmail
  | integrityError
  deriving Repr, DecidableEq

/-- The `signup` route of `api/auth.py` with an explicit concurrent
environment: `interleave` holds user rows committed between the
existence check and this call's commit.  The commit violates the unique
email constraint exactly when the committed table already holds the
email. -/
def signup (db : UserDB) (interleave : List User) (email pwdHash : String) :
    Except SignupErr (User × UserDB) :=
  match get_user_by_email db.rows email with
  | some _ => .error .duplicateEmail
  | none =>
      if (db.rows ++ interleave).any (fun u => u.email == email) then
        .error .integrityError
      else
        .ok ({ id := db.nextId, email := email, password_hash := pwdHash,
               created_at := db.now },
          { rows := (db.rows ++ interleave) ++
              [{ id := db.nextId, email := email, password_hash := pwdHash,
                 created_at := db.now }]
            nextId := db.nextId + 1
            now := db.now })

/-- Empty credential store. -/
def emptyUserDB : UserDB := { rows := [], nextId := 1, now := 50 }

/-- The user row committed by the winning signup of the race. -/
def raceUser : User :=
  { id := 1, email := "a@x.com", password_hash := "h1", created_at := 50 }

/-- C4 (code bug evidence): a second signup for the same email whose
existence check ran before the first signup's commit fails with the
uncaught `IntegrityError` — a generic failure — rather than with the
duplicate-email rejection; sequentially, a fresh email succeeds and a
visible duplicate is rejected as duplicate-email. -/
theorem signup_race_bug :
    signup emptyUserDB [raceUser] "a@x.com" "h2" = .error .integrityError ∧
    signup emptyUserDB [] "a@x.com" "h1" =
      .ok (raceUser, { rows := [raceUser], nextId := 2, now := 50 }) ∧
    signup { rows := [raceUser], nextId := 2, now := 60 } [] "a@x.com" "h2" =
      .error .duplicateEmail := by
  refine ⟨?_, ?_, ?_⟩ <;> rfl

/-!
Token service and request authorizer (`api/auth.py`).  A JWT is embedded
as either a malformed string or a well-formed token carrying an optional
`sub` claim, an absolute expiry instant `exp`, and the key it was signed
with.  `jwt.decode` succeeds exactly when the signature key matches the
configured secret and the expiry instant is not in the past (the library
raises `ExpiredSignatureError`, a `JWTError`, when `exp` is before now).
Time is abstract (seconds since some epoch).
-/

/-- Default token lifetime (`ACCESS_TOKEN_EXPIRE_MINUTES`, default 60),
in abstract time units. -/
def ACCESS_TOKEN_EXPIRE : Nat := 60 * 60

/-- Bearer token as received by the authorizer. -/
inductive BearerToken where
  | malformed
  | signed (sub : Option String) (exp : Nat) (key : String)
  deriving Repr, DecidableEq

/-- Outcome of `jwt.decode`: the payload's claims, or `none` for any
`JWTError` (signature mismatch, undecodable token, expired token). -/
def jwt_decode (secret : String) (now : Nat) :
    BearerToken → Option (Option String × Nat)
  | .malformed => none
  | .signed sub exp key =>
      if key == secret then
        if exp < now then none else some (sub, exp)
      else none

/-- `create_access_token` from `api/auth.py`: copies the claims, sets
`exp` to now plus the given delta (or the configured default), and signs
with the secret; raises a configuration error when the secret is unset. -/
def create_access_token (secret : String) (now : Nat) (data_sub : Option String)
    (expires_delta : Option Nat) : Except String BearerToken :=
  if secret == "" then
    .error "JWT_SECRET environment variable is not set."
  else
    .ok (.signed data_sub (now + expires_delta.getD ACCESS_TOKEN_EXPIRE) secret)

/-- Subject extraction step of `get_current_user`: decode the token and
read the `sub` claim; `none` models the `JWTError` path and the missing
subject claim path alike. -/
def token_subject (secret : String) (now : Nat) (tok : BearerToken) :
    Option String :=
  match jwt_decode secret now tok with
  | none => none
  | some payload => payload.1

/-- The single `credentials_exception` of `get_current_user`: HTTP status
and detail message. -/
structure HttpError where
  status : Nat
  detail : String
  deriving Repr, DecidableEq

/-- The one exception object every authorization failure raises. -/
def credentials_exception : HttpError :=
  { status := 401, detail := "Could not validate credentials" }

/-- Result of the request authorizer. -/
inductive AuthResult where
  | ok (u : User)
  | httpError (e : HttpError)
  | configError
  deriving Repr, DecidableEq

/-- `get_current_user` from `api/auth.py`: ensure the secret is
configured, decode the token, read the `sub` claim, resolve it through
the credential store; every failure raises `credentials_exception`. -/
def get_current_user (secret : String) (now : Nat) (db : UserDB)
    (tok : BearerToken) : AuthResult :=
  if secret == "" then .configError
  else
    match jwt_decode secret now tok with
    | none => .httpError credentials_exception
    | some payload =>
        match payload.1 with
        | none => .httpError credentials_exception
        | some s =>
            match get_user_by_email db.rows s with
            | none => .httpError credentials_exception
            | some u => .ok u

/-- C5: a token issued for an identity with a ttl verifies to that same
identity immediately after issuance and at any instant strictly before
the expiry instant (issue time + ttl), and verification fails once the
expiry instant is in the past. -/
theorem token_issue_verify (secret identity : String) (ttl t0 now : Nat)
    (hs : secret ≠ "") :
    ∃ tok, create_access_token secret t0 (some identity) (some ttl) = .ok tok ∧
      token_subject secret t0 tok = some identity ∧
      (now < t0 + ttl → token_subject secret now tok = some identity) ∧
      (t0 + ttl < now → token_subject secret now tok = none) := by
  have hbeq : (secret == secret) = true := beq_self_eq_true secret
  have hne : (secret == "") = false := by
    rw [beq_eq_false_iff_ne]
    exact hs
  refine ⟨.signed (some identity) (t0 + ttl) secret, ?_, ?_, ?_, ?_⟩
  · rw [create_access_token, hne]
    rfl
  · rw [token_subject, jwt_decode, if_pos hbeq, if_neg (by omega)]
  · intro h
    rw [token_subject, jwt_decode, if_pos hbeq, if_neg (by omega)]
  · intro h
    rw [token_subject, jwt_decode, if_pos hbeq, if_pos h]

theorem token_issue_verify_witness :
    ∃ tok,
      create_access_token "s3cret" 1000 (some "a@x.com") (some 3600) = .ok tok ∧
      token_subject "s3cret" 1000 tok = some "a@x.com" ∧
      (2000 < 1000 + 3600 → token_subject "s3cret" 2000 tok = some "a@x.com") ∧
      (1000 + 3600 < 2000 → token_subject "s3cret" 2000 tok = none) :=
  token_issue_verify "s3cret" "a@x.com" 3600 1000 2000 (by decide)

/-- C6: every bearer-token authorization failure — malformed token,
signature mismatch, missing subject claim, expired token, or a verified
subject with no user record — yields the one `credentials_exception`,
identical in status (401) and message across all causes. -/
theorem auth_failures_uniform (secret : String) (now : Nat) (db : UserDB)
    (hs : secret ≠ "") :
    get_current_user secret now db .malformed =
      .httpError credentials_exception ∧
    (∀ sub exp key, key ≠ secret →
      get_current_user secret now db (.signed sub exp key) =
        .httpError credentials_exception) ∧
    (∀ exp, get_current_user secret now db (.signed none exp secret) =
      .httpError credentials_exception) ∧
    (∀ sub exp, exp < now →
      get_current_user secret now db (.signed sub exp secret) =
        .httpError credentials_exception) ∧
    (∀ s exp, ¬ exp < now → get_user_by_email db.rows s = none →
      get_current_user secret now db (.signed (some s) exp secret) =
        .httpError credentials_exception) ∧
    credentials_exception.status = 401 ∧
    credentials_exception.detail = "Could not validate credentials" := by
  have hne : (secret == "") = false := by
    rw [beq_eq_false_iff_ne]
    exact hs
  have hbeq : (secret == secret) = true := beq_self_eq_true secret
  refine ⟨?_, ?_, ?_, ?_, ?_, rfl, rfl⟩
  · rw [get_current_user, if_neg (by rw [hne]; exact Bool.false_ne_true)]
    rfl
  · intro sub exp key hkey
    rw [get_current_user, if_neg (by rw [hne]; exact Bool.false_ne_true),
      jwt_decode, if_neg (by rw [beq_eq_false_iff_ne.mpr hkey]; exact Bool.false_ne_true)]
  · intro exp
    rw [get_current_user, if_neg (by rw [hne]; exact Bool.false_ne_true),
      jwt_decode, if_pos hbeq]
    by_cases hexp : exp < now
    · rw [if_pos hexp]
    · rw [if_neg hexp]
  · intro sub exp hexp
    rw [get_current_user, if_neg (by rw [hne]; exact Bool.false_ne_true),
      jwt_decode, if_pos hbeq, if_pos hexp]
  · intro s exp hexp huser
    rw [get_current_user, if_neg (by rw [hne]; exact Bool.false_ne_true),
      jwt_decode, if_pos hbeq, if_neg hexp]
    show (match get_user_by_email db.rows s with
      | none => AuthResult.httpError credentials_exception
      | some u => AuthResult.ok u) = .httpError credentials_exception
    rw [huser]

theorem auth_failures_uniform_witness :
    get_current_user "s3cret" 500 emptyUserDB .malformed =
      .httpError credentials_exception :=
  (auth_failures_uniform "s3cret" 500 emptyUserDB (by decide)).1

/-!
Recipe lookup gateway (`services/spoonacular.py`, `api/recipes.py`).
The upstream payload of a detail lookup is embedded as the list of its
JSON object keys (the route only inspects truthiness and the presence of
the key "id").  The route body runs inside a `try` whose handlers are
checked in order: `SpoonacularAuthError`, `SpoonacularServiceError`,
then a catch-all `except Exception` — which also catches the
`HTTPException(404)` the body itself raises, because `HTTPException`
subclasses `Exception` and matches neither Spoonacular handler.
-/

/-- Result of the upstream `get_recipe_information` call. -/
inductive DetailsUpstream where
  | payload (keys : List String)
  | authError
  | serviceError (msg : String)
  | otherError (msg : String)
  deriving Repr, DecidableEq

/-- Exceptions that can leave the `try` body of `get_recipe_details`. -/
inductive PyExc where
  | spoonAuth
  | spoonService (msg : String)
  | httpExc (status : Nat) (detail : String)
  | other (msg : String)
  deriving Repr, DecidableEq

/-- Result of the `try` body: the returned payload keys, or the exception
that escaped (including the deliberately raised `HTTPException(404)` when
the payload is empty or has no "id" key). -/
def get_recipe_details_body (up : DetailsUpstream) :
    Except PyExc (List String) :=
  match up with
  | .authError => .error .spoonAuth
  | .serviceError m => .error (.spoonService m)
  | .otherError m => .error (.other m)
  | .payload keys =>
      if keys.isEmpty || !(keys.contains "id") then
        .error (.httpExc 404 "Recipe not found")
      else
        .ok keys

/-- The interpolation `f"...{e}"` applied to an `HTTPException`, whose
string form is "status: detail". -/
def excText : PyExc → String
  | .spoonAuth => "Unauthorized"
  | .spoonService m => m
  | .httpExc s d => toString s ++ ": " ++ d
  | .other m => m

/-- `get_recipe_details` from `api/recipes.py`: run the body, then apply
the handlers in order.  The `except Exception` catch-all converts any
exception other than the two Spoonacular errors — including the body's
own `HTTPException(404)` — into a 502 response. -/
def get_recipe_details (up : DetailsUpstream) :
    Except HttpError (List String) :=
  match get_recipe_details_body up with
  | .ok keys => .ok keys
  | .error .spoonAuth =>
      .error { status := 401
               detail := "Unauthorized: missing or invalid Spoonacular API key. Please set SPOONACULAR_API_KEY in backend .env." }
  | .error (.spoonService m) =>
      .error { status := 502, detail := "Spoonacular error: " ++ m }
  | .error e =>
      .error { status := 502
               detail := "Unexpected error contacting Spoonacular: " ++ excText e }

/-- C7 (code bug evidence): when the upstream call succeeds with an empty
payload or a payload lacking "id", the route responds 502 ("Unexpected
error contacting Spoonacular: 404: Recipe not found"), not 404: the
`HTTPException(404)` raised in the `try` body is captured by the trailing
`except Exception` handler and re-raised as 502.  A payload carrying "id"
is returned as-is. -/
theorem details_empty_payload_is_502 :
    get_recipe_details (.payload []) =
      .error { status := 502
               detail := "Unexpected error contacting Spoonacular: 404: Recipe not found" } ∧
    get_recipe_details (.payload ["title"]) =
      .error { status := 502
               detail := "Unexpected error contacting Spoonacular: 404: Recipe not found" } ∧
    get_recipe_details (.payload ["id", "title"]) = .ok ["id", "title"] := by
  refine ⟨rfl, rfl, rfl⟩

/-!
Upstream search parameters (`services/spoonacular.py`,
`SpoonacularClient.search_recipes`).  The method builds the query-string
parameters sent to the complexSearch endpoint; `number` is clamped with
`max(1, min(number, 50))`, `offset` with `max(0, offset)`, and the
optional filters are included only when truthy (non-empty).
-/

/-- Query parameters sent upstream by `search_recipes`. -/
structure SearchParams where
  query : String
  number : Int
  offset : Int
  addRecipeInformation : String
  diet : Option String
  cuisine : Option String
  intolerances : Option String
  deriving Repr, DecidableEq

/-- Python truthiness of an optional string (`if diet:`): present and
non-empty. -/
def pyTruthy : Option String → Bool
  | none => false
  | some s => !(s == "")

/-- `SpoonacularClient.search_recipes` parameter construction. -/
def search_recipes (query : String) (number offset : Int)
    (diet cuisine intolerances : Option String) : SearchParams :=
  { query := query
    number := max 1 (min number 50)
    offset := max 0 offset
    addRecipeInformation := "true"
    diet := if pyTruthy diet then diet else none
    cuisine := if pyTruthy cuisine then cuisine else none
    intolerances := if pyTruthy intolerances then intolerances else none }

/-- C8: for every caller-supplied number and offset, the search operation
sends upstream a result count clamped between 1 and 50 and an offset
clamped to at least 0; in particular number=999 is sent as 50. -/
theorem search_params_clamped (q : String) (number offset : Int)
    (diet cuisine intolerances : Option String) :
    1 ≤ (search_recipes q number offset diet cuisine intolerances).number ∧
    (search_recipes q number offset diet cuisine intolerances).number ≤ 50 ∧
    0 ≤ (search_recipes q number offset diet cuisine intolerances).offset ∧
    (search_recipes q 999 offset diet cuisine intolerances).number = 50 := by
  refine ⟨le_max_left 1 _, ?_, le_max_left 0 _, ?_⟩
  · apply max_le
    · norm_num
    · exact min_le_right number 50
  · show max 1 (min 999 50) = 50
    rfl
